import Mathlib

/-!
Verification of the batched 2D rendering layer (`src/gfx.ts`) of the
kaboom repository, against its natural-language specification.

Numbers are modelled as rationals (every JavaScript float value is a
rational); the transcendental operations used by the source
(`Math.cos`, `Math.sin`, `Math.sqrt`, `Math.atan2`, `Math.PI`) are
abstracted as an arbitrary `MathOps` bundle, so every theorem below is
universally quantified over them whenever they could matter.

The repository's `math.ts` and `utils.ts` are not part of the provided
sources (only their type declarations in `types.ts` are); the value
types and the functions `deepEq`, `Vec2.add/sub/scale/dist/angle` and
the `Mat4` operations are therefore modelled from the specification,
as marked in their doc comments.  Everything else is a direct shallow
embedding of `src/gfx.ts`.
-/

namespace Kaboom

/-- Modelled from the spec (math kernel, `math.ts` is not under `src/`):
a 2D vector of rationals. -/
structure Vec2 where
  x : ℚ
  y : ℚ
deriving DecidableEq, Repr

/-- Modelled from the spec: a 3D vector; `xy` drops the z component
(as `Vec3.xy()` in `types.ts`). -/
structure Vec3 where
  x : ℚ
  y : ℚ
  z : ℚ
deriving DecidableEq, Repr

/-- Modelled from the spec: an RGBA color with components in [0,1]. -/
structure Color where
  r : ℚ
  g : ℚ
  b : ℚ
  a : ℚ
deriving DecidableEq, Repr

/-- A source rectangle in [0,1]² texture space (`Quad` in `types.ts`). -/
structure Quad where
  x : ℚ
  y : ℚ
  w : ℚ
  h : ℚ
deriving DecidableEq, Repr

/-- The `xy()` projection of a `Vec3`. -/
def Vec3.xy (v : Vec3) : Vec2 := ⟨v.x, v.y⟩

/-- Modelled from the spec: componentwise vector addition. -/
def Vec2.add (a b : Vec2) : Vec2 := ⟨a.x + b.x, a.y + b.y⟩

/-- Modelled from the spec: componentwise vector subtraction. -/
def Vec2.sub (a b : Vec2) : Vec2 := ⟨a.x - b.x, a.y - b.y⟩

/-- Modelled from the spec: `Vec2.scale` applied to a vector argument
(componentwise scaling). -/
def Vec2.scaleV (a b : Vec2) : Vec2 := ⟨a.x * b.x, a.y * b.y⟩

/-- Modelled from the spec: `Vec2.scale` applied to a number argument
(uniform scaling, the number is expanded to a vector first). -/
def Vec2.scaleN (a : Vec2) (n : ℚ) : Vec2 := a.scaleV ⟨n, n⟩

/-- The abstracted transcendental operations of `Math`: the source uses
`Math.cos`, `Math.sin`, `Math.sqrt` (through `Vec2.dist`), `Math.atan2`
(through `Vec2.angle`) and `Math.PI`.  Every theorem quantifies over an
arbitrary bundle, so it holds in particular for the real ones. -/
structure MathOps where
  cos : ℚ → ℚ
  sin : ℚ → ℚ
  sqrt : ℚ → ℚ
  atan2 : ℚ → ℚ → ℚ
  pi : ℚ

/-- Modelled from the spec: `distance(p1,p2)`, the Euclidean distance,
with the square root abstracted into `MathOps`. -/
def Vec2.dist (mo : MathOps) (a b : Vec2) : ℚ :=
  mo.sqrt ((a.x - b.x) * (a.x - b.x) + (a.y - b.y) * (a.y - b.y))

/-- Modelled from the spec: `angle(p1,p2)`, the angle between two points,
with `atan2` abstracted into `MathOps`. -/
def Vec2.angle (mo : MathOps) (a b : Vec2) : ℚ :=
  mo.atan2 (a.y - b.y) (a.x - b.x)

/-- Modelled from the spec: a 4×4 matrix of rationals
("Math kernel: ... 4×4 matrix"). -/
structure Mat4 where
  e : Fin 4 → Fin 4 → ℚ

instance : DecidableEq Mat4 := fun a b =>
  decidable_of_iff (a.e = b.e) (by cases a; cases b; simp)

/-- Modelled from the spec: the identity matrix, the value of the
`mat4()` constructor used for the renderer's initial transform. -/
def mat4 : Mat4 := ⟨fun i j => if i = j then 1 else 0⟩

/-- Modelled from the spec: "standard 4×4 matrix multiplication". -/
def Mat4.mult (a b : Mat4) : Mat4 :=
  ⟨fun i j => a.e i 0 * b.e 0 j + a.e i 1 * b.e 1 j
    + a.e i 2 * b.e 2 j + a.e i 3 * b.e 3 j⟩

/-- Modelled from the spec: the translation matrix for a 2D offset. -/
def translationMat (p : Vec2) : Mat4 :=
  ⟨fun i j =>
    if i = j then 1
    else if i = 0 ∧ j = 3 then p.x
    else if i = 1 ∧ j = 3 then p.y
    else 0⟩

/-- Modelled from the spec: the 2D scaling matrix. -/
def scaleMat (p : Vec2) : Mat4 :=
  ⟨fun i j =>
    if i = 0 ∧ j = 0 then p.x
    else if i = 1 ∧ j = 1 then p.y
    else if i = j then 1
    else 0⟩

/-- Modelled from the spec: the rotation matrix about the Z axis, with
cosine and sine values supplied by the caller. -/
def rotZMat (c s : ℚ) : Mat4 :=
  ⟨fun i j =>
    if i = 0 ∧ j = 0 then c
    else if i = 0 ∧ j = 1 then -s
    else if i = 1 ∧ j = 0 then s
    else if i = 1 ∧ j = 1 then c
    else if i = j then 1
    else 0⟩

/-- Modelled from the spec: `Mat4.translate` composes a translation onto
the matrix via standard 4×4 matrix multiplication. -/
def Mat4.translate (m : Mat4) (p : Vec2) : Mat4 := m.mult (translationMat p)

/-- Modelled from the spec: `Mat4.scale` composes a 2D scaling. -/
def Mat4.scale (m : Mat4) (p : Vec2) : Mat4 := m.mult (scaleMat p)

/-- Modelled from the spec: `Mat4.rotateZ` composes a Z rotation with
the abstracted cosine and sine of the angle. -/
def Mat4.rotateZ (m : Mat4) (mo : MathOps) (a : ℚ) : Mat4 :=
  m.mult (rotZMat (mo.cos a) (mo.sin a))

/-- Modelled from the spec: "multiply by active transform (2D affine
portion)" — `Mat4.multVec2` applies the matrix to `(x, y, 0, 1)` and
keeps the `xy` part. -/
def Mat4.multVec2 (m : Mat4) (p : Vec2) : Vec2 :=
  ⟨m.e 0 0 * p.x + m.e 0 1 * p.y + m.e 0 3,
   m.e 1 0 * p.x + m.e 1 1 * p.y + m.e 1 3⟩

/-- A texture handle (`GfxTexture` in `types.ts`).  The `tid` field
stands for the identity of the underlying GPU texture object: the
source compares textures with `!==`, and distinct GPU objects are
modelled by distinct ids. -/
structure GfxTexture where
  tid : ℕ
  width : ℚ
  height : ℚ
deriving DecidableEq, Repr

/-- A shader program handle (`GfxProgram` in `types.ts`); `pid` stands
for the identity of the underlying GPU program object. -/
structure GfxProgram where
  pid : ℕ
deriving DecidableEq, Repr

/-- A uniform value (`UniformValue` in `types.ts`, plus plain numbers,
which `GfxProgram.send` in `gfx.ts` also accepts). -/
inductive UniformValue where
  | num (n : ℚ)
  | v2 (v : Vec2)
  | v3 (v : Vec3)
  | col (c : Color)
  | m4 (m : Mat4)
deriving DecidableEq

/-- A uniform set (`Uniform` in `types.ts`): a mapping from names to
uniform values, represented as an association list. -/
abbrev Uniform := List (String × UniformValue)

/-- Modelled from the spec (`deepEq` lives in `utils.ts`, which is not
under `src/`): "uniform sets compare by deep structural equality over
the mapping (order-independent, value-wise for vectors/colors/
matrices)" — both maps contain exactly the same key/value bindings. -/
def deepEq (a b : Uniform) : Bool :=
  a.all (fun kv => b.lookup kv.1 == some kv.2)
    && b.all (fun kv => a.lookup kv.1 == some kv.2)

/-- A font handle (`GfxFont` in `types.ts`): atlas texture, character
map and per-glyph cell fractions. -/
structure GfxFont where
  tex : GfxTexture
  map : List (Char × Vec2)
  qw : ℚ
  qh : ℚ

/-- A vertex as fed to `drawRaw` (`Vertex` in `types.ts`). -/
structure Vertex where
  pos : Vec3
  uv : Vec2
  color : Color

/-- The nine named anchors (`Origin` in `types.ts`). -/
inductive Origin where
  | topleft | top | topright | left | center | right | botleft | bot | botright
deriving DecidableEq, Repr

/-- An anchor argument: a named anchor or an explicit offset vector
(the `Origin | Vec2` union in the source). -/
inductive OriginArg where
  | named (o : Origin)
  | vec (v : Vec2)
deriving DecidableEq, Repr

/-- The `originPt` function of `gfx.ts` (lines 158-171). -/
def originPt : OriginArg → Vec2
  | .named .topleft => ⟨-1, -1⟩
  | .named .top => ⟨0, -1⟩
  | .named .topright => ⟨1, -1⟩
  | .named .left => ⟨-1, 0⟩
  | .named .center => ⟨0, 0⟩
  | .named .right => ⟨1, 0⟩
  | .named .botleft => ⟨-1, 1⟩
  | .named .bot => ⟨0, 1⟩
  | .named .botright => ⟨1, 1⟩
  | .vec v => v

/-- A scale argument: the `Vec2 | number` union of the conf types. -/
inductive ScaleArg where
  | num (n : ℚ)
  | vec (v : Vec2)
deriving DecidableEq, Repr

/-- The `vec2` constructor applied to a `Vec2 | number` value: a number
is expanded to both components, a vector is cloned. -/
def vec2Of : ScaleArg → Vec2
  | .num n => ⟨n, n⟩
  | .vec v => v

/-- The `STRIDE` constant of `gfx.ts` (9 floats per vertex). -/
def STRIDE : ℕ := 9

/-- The `QUEUE_COUNT` constant of `gfx.ts` (fixed queue capacity). -/
def QUEUE_COUNT : ℕ := 65536

/-- The mutable renderer context (`GfxCtx` in `gfx.ts`), together with
the per-renderer constants `width`/`height` (the logical viewport size)
that `toNDC` reads.  `drawLog` and `lineLog` are ghost instrumentation:
`drawLog` records the index count of every `gl.drawElements` call issued
by `flush`, and `lineLog` records the endpoints of every `drawLine`
invocation; neither influences any computation. -/
structure GfxState where
  width : ℚ
  height : ℚ
  defTex : GfxTexture
  defProg : GfxProgram
  vqueue : List ℚ
  iqueue : List ℕ
  curTex : Option GfxTexture
  curProg : Option GfxProgram
  curUniform : Uniform
  transform : Mat4
  transformStack : List Mat4
  drawCalls : ℕ
  lastDrawCalls : ℕ
  drawLog : List ℕ
  lineLog : List (Vec2 × Vec2)

/-- The `toNDC` function of `gfx.ts` (lines 512-517). -/
def toNDC (s : GfxState) (pt : Vec2) : Vec2 :=
  ⟨pt.x / s.width * 2 - 1, -pt.y / s.height * 2 + 1⟩

/-- The `flush` function of `gfx.ts` (lines 446-477): no-op when no
texture/program is bound or either queue is empty; otherwise issue one
indexed draw call covering the full index queue (recorded in the ghost
`drawLog`), clear both queues and increment the draw-call counter. -/
def flush (s : GfxState) : GfxState :=
  if s.curTex = none ∨ s.curProg = none ∨ s.vqueue = [] ∨ s.iqueue = [] then
    s
  else
    { s with
      iqueue := []
      vqueue := []
      drawCalls := s.drawCalls + 1
      drawLog := s.drawLog ++ [s.iqueue.length] }

/-- The 9 floats a single vertex contributes to the vertex queue in
`drawRaw` (lines 430-439): NDC-projected transformed position, raw z,
uv and color. -/
def vertexFloats (s : GfxState) (v : Vertex) : List ℚ :=
  let pt := toNDC s (s.transform.multVec2 v.pos.xy)
  [pt.x, pt.y, v.pos.z, v.uv.x, v.uv.y, v.color.r, v.color.g, v.color.b, v.color.a]

/-- The `drawRaw` function of `gfx.ts` (lines 399-444).  The `tex`,
`prog` and `uniform` parameters are optional in the source (defaulting
to the context's default texture/program and the empty uniform set);
the flush condition, state adoption, index rebasing and vertex
transformation follow the source line by line. -/
def drawRaw (verts : List Vertex) (indices : List ℕ)
    (tex : Option GfxTexture) (prog : Option GfxProgram)
    (uniform : Option Uniform) (s : GfxState) : GfxState :=
  let tex := tex.getD s.defTex
  let prog := prog.getD s.defProg
  let uniform := uniform.getD []
  -- flush on texture / shader change and overflow
  let s1 :=
    if some tex ≠ s.curTex
        ∨ some prog ≠ s.curProg
        ∨ deepEq s.curUniform uniform = false
        ∨ s.vqueue.length + verts.length * STRIDE > QUEUE_COUNT
        ∨ s.iqueue.length + indices.length > QUEUE_COUNT then
      flush s
    else
      s
  let s2 := { s1 with curTex := some tex, curProg := some prog, curUniform := uniform }
  let nIndices := indices.map (fun i => i + s2.vqueue.length / STRIDE)
  let nVerts := (verts.map (vertexFloats s2)).flatten
  { s2 with iqueue := s2.iqueue ++ nIndices, vqueue := s2.vqueue ++ nVerts }

/-- The `pushTransform` function of `gfx.ts` (lines 559-561); the list
head models the top of the JavaScript array stack. -/
def pushTransform (s : GfxState) : GfxState :=
  { s with transformStack := s.transform :: s.transformStack }

/-- The `popTransform` function of `gfx.ts` (lines 563-567): restores
the saved matrix when the stack is non-empty, otherwise a no-op. -/
def popTransform (s : GfxState) : GfxState :=
  match s.transformStack with
  | [] => s
  | t :: rest => { s with transform := t, transformStack := rest }

/-- The `pushMatrix` function of `gfx.ts` (lines 520-522). -/
def pushMatrix (m : Mat4) (s : GfxState) : GfxState :=
  { s with transform := m }

/-- The `pushTranslate` function of `gfx.ts` (lines 524-529), with the
zero-vector fast path. -/
def pushTranslate (p : Vec2) (s : GfxState) : GfxState :=
  if p.x = 0 ∧ p.y = 0 then s
  else { s with transform := s.transform.translate p }

/-- The `pushScale` function of `gfx.ts` (lines 531-536), with the
unit-scale fast path. -/
def pushScale (p : Vec2) (s : GfxState) : GfxState :=
  if p.x = 1 ∧ p.y = 1 then s
  else { s with transform := s.transform.scale p }

/-- The `pushRotateZ` function of `gfx.ts` (lines 552-557); `!a` is
modelled as the zero test (the zero-angle fast path). -/
def pushRotateZ (mo : MathOps) (a : ℚ) (s : GfxState) : GfxState :=
  if a = 0 then s
  else { s with transform := s.transform.rotateZ mo a }

/-- The `DrawQuadConf` configuration object (`types.ts`), with every
field optional as in the source. -/
structure DrawQuadConf where
  pos : Option Vec2 := none
  width : Option ℚ := none
  height : Option ℚ := none
  scale : Option ScaleArg := none
  rot : Option ℚ := none
  color : Option Color := none
  origin : Option OriginArg := none
  z : Option ℚ := none
  tex : Option GfxTexture := none
  quad : Option Quad := none
  prog : Option GfxProgram := none
  uniform : Option Uniform := none

/-- The `DrawTextureConf` configuration object (`types.ts`). -/
structure DrawTextureConf where
  pos : Option Vec2 := none
  scale : Option ScaleArg := none
  rot : Option ℚ := none
  color : Option Color := none
  origin : Option OriginArg := none
  quad : Option Quad := none
  z : Option ℚ := none
  prog : Option GfxProgram := none
  uniform : Option Uniform := none

/-- The `DrawRectConf` configuration object (`types.ts`). -/
structure DrawRectConf where
  scale : Option ScaleArg := none
  rot : Option ℚ := none
  color : Option Color := none
  origin : Option OriginArg := none
  z : Option ℚ := none
  prog : Option GfxProgram := none
  uniform : Option Uniform := none

/-- The `DrawRectStrokeConf` configuration object (`types.ts`).  This
is also the conf type of the embedded `drawLine`: the source spreads
the received conf object into its `drawQuad` call, so when
`drawRectStroke` forwards its own conf the extra `scale` field flows
through at runtime even though `DrawLineConf` does not declare it. -/
structure DrawRectStrokeConf where
  width : Option ℚ := none
  scale : Option ScaleArg := none
  rot : Option ℚ := none
  color : Option Color := none
  origin : Option OriginArg := none
  z : Option ℚ := none
  prog : Option GfxProgram := none

/-- The `DrawTextConf` configuration object (`types.ts`). -/
structure DrawTextConf where
  size : Option ℚ := none
  pos : Option Vec2 := none
  scale : Option ScaleArg := none
  rot : Option ℚ := none
  color : Option Color := none
  origin : Option OriginArg := none
  width : Option ℚ := none
  z : Option ℚ := none
  prog : Option GfxProgram := none

/-- A positioned glyph descriptor (`FormattedChar` in `types.ts`);
`color`, `origin` and `z` are stored as the possibly-absent conf fields,
exactly as the source copies them. -/
structure FormattedChar where
  tex : GfxTexture
  quad : Quad
  ch : Char
  pos : Vec2
  color : Option Color
  origin : Option OriginArg
  scale : Vec2
  z : Option ℚ

/-- A formatted text layout result (`FormattedText` in `types.ts`). -/
structure FormattedText where
  width : ℚ
  height : ℚ
  chars : List FormattedChar

/-- The `drawQuad` function of `gfx.ts` (lines 571-615): normalize the
conf defaults (`||` defaults on numbers coincide with `??` because the
fallback is the falsy value itself, except where noted), bracket the
translate/scale/rotate composition between one `pushTransform` and one
`popTransform`, and emit two triangles through `drawRaw`. -/
def drawQuad (mo : MathOps) (conf : DrawQuadConf) (s : GfxState) : GfxState :=
  let w := conf.width.getD 0
  let h := conf.height.getD 0
  let pos := conf.pos.getD ⟨0, 0⟩
  let origin := originPt (conf.origin.getD (.named .topleft))
  let offset := origin.scaleV ((Vec2.mk w h).scaleN (-(1/2)))
  let scale := vec2Of (conf.scale.getD (.num 1))
  let rot := conf.rot.getD 0
  let q := conf.quad.getD ⟨0, 0, 1, 1⟩
  let z := 1 - conf.z.getD 0
  let color := conf.color.getD ⟨1, 1, 1, 1⟩
  let s := pushTransform s
  let s := pushTranslate pos s
  let s := pushScale scale s
  let s := pushRotateZ mo rot s
  let s := pushTranslate offset s
  let s := drawRaw
    [ ⟨⟨-w/2,  h/2, z⟩, ⟨q.x, q.y + q.h⟩, color⟩,
      ⟨⟨-w/2, -h/2, z⟩, ⟨q.x, q.y⟩, color⟩,
      ⟨⟨ w/2, -h/2, z⟩, ⟨q.x + q.w, q.y⟩, color⟩,
      ⟨⟨ w/2,  h/2, z⟩, ⟨q.x + q.w, q.y + q.h⟩, color⟩ ]
    [0, 1, 3, 1, 2, 3] conf.tex conf.prog conf.uniform s
  popTransform s

/-- The `drawTexture` function of `gfx.ts` (lines 617-634). -/
def drawTexture (mo : MathOps) (tex : GfxTexture) (conf : DrawTextureConf)
    (s : GfxState) : GfxState :=
  let q := conf.quad.getD ⟨0, 0, 1, 1⟩
  drawQuad mo
    { pos := conf.pos, scale := conf.scale, rot := conf.rot,
      color := conf.color, origin := conf.origin, z := conf.z,
      prog := conf.prog, uniform := conf.uniform,
      tex := some tex, quad := some q,
      width := some (tex.width * q.w), height := some (tex.height * q.h) } s

/-- The `drawRect` function of `gfx.ts` (lines 636-648). -/
def drawRect (mo : MathOps) (pos : Vec2) (w h : ℚ) (conf : DrawRectConf)
    (s : GfxState) : GfxState :=
  drawQuad mo
    { scale := conf.scale, rot := conf.rot, color := conf.color,
      origin := conf.origin, z := conf.z, prog := conf.prog,
      uniform := conf.uniform,
      pos := some pos, width := some w, height := some h } s

/-- The `drawLine` function of `gfx.ts` (lines 670-689): a line is a
rotated thin quad.  Note `conf.width || 1` maps a zero width to 1.  The
invocation is recorded in the ghost `lineLog` before delegating to
`drawQuad`. -/
def drawLine (mo : MathOps) (p1 p2 : Vec2) (conf : DrawRectStrokeConf)
    (s : GfxState) : GfxState :=
  let w := match conf.width with
    | none => 1
    | some n => if n = 0 then 1 else n
  let h := p1.dist mo p2
  let rot := mo.pi / 2 - p1.angle mo p2
  let s := { s with lineLog := s.lineLog ++ [(p1, p2)] }
  drawQuad mo
    { scale := conf.scale, color := conf.color, z := conf.z,
      prog := conf.prog,
      pos := some ((p1.add p2).scaleN (1/2)),
      width := some w, height := some h, rot := some rot,
      origin := some (.named .center) } s

/-- The `drawRectStroke` function of `gfx.ts` (lines 650-668): compute
the four anchor-adjusted corners and issue four `drawLine` calls. -/
def drawRectStroke (mo : MathOps) (pos : Vec2) (w h : ℚ)
    (conf : DrawRectStrokeConf) (s : GfxState) : GfxState :=
  let offset := ((originPt (conf.origin.getD (.named .topleft))).scaleV ⟨w, h⟩).scaleN (1/2)
  let p1 := (pos.add ⟨-w/2, -h/2⟩).sub offset
  let p2 := (pos.add ⟨-w/2,  h/2⟩).sub offset
  let p3 := (pos.add ⟨ w/2,  h/2⟩).sub offset
  let p4 := (pos.add ⟨ w/2, -h/2⟩).sub offset
  let s := drawLine mo p1 p2 conf s
  let s := drawLine mo p2 p3 conf s
  let s := drawLine mo p3 p4 conf s
  drawLine mo p4 p1 conf s

/-- The glyph cell width `gw` of `fmtText` (line 699). -/
def fmtGw (font : GfxFont) : ℚ := font.qw * font.tex.width

/-- The glyph cell height `gh` of `fmtText` (line 700). -/
def fmtGh (font : GfxFont) : ℚ := font.qh * font.tex.height

/-- The requested size of `fmtText` (line 701): `conf.size || gh`. -/
def fmtSize (font : GfxFont) (conf : DrawTextConf) : ℚ :=
  match conf.size with
  | none => fmtGh font
  | some n => if n = 0 then fmtGh font else n

/-- The effective scale of `fmtText` (line 702):
`vec2(size / gh).scale(vec2(conf.scale || 1))`. -/
def fmtScale (font : GfxFont) (conf : DrawTextConf) : Vec2 :=
  (Vec2.mk (fmtSize font conf / fmtGh font) (fmtSize font conf / fmtGh font)).scaleV
    (match conf.scale with
      | none => ⟨1, 1⟩
      | some (.num n) => if n = 0 then ⟨1, 1⟩ else ⟨n, n⟩
      | some (.vec v) => v)

/-- The scaled character cell width `cw` of `fmtText` (line 703). -/
def fmtCw (font : GfxFont) (conf : DrawTextConf) : ℚ :=
  (fmtScale font conf).x * fmtGw font

/-- The scaled character cell height `ch` of `fmtText` (line 704). -/
def fmtCh (font : GfxFont) (conf : DrawTextConf) : ℚ :=
  (fmtScale font conf).y * fmtGh font

/-- The accumulator of the measuring loop of `fmtText` (lines 705-723):
running cursor x, total height, running total width, and the lines
built so far (`flines` starts as `[[]]` and is always non-empty). -/
structure FmtAcc where
  curX : ℚ
  th : ℚ
  tw : ℚ
  flines : List (List Char)

/-- Appending to the last line of `flines`
(`flines[flines.length - 1].push(char)`). -/
def appendLast : List (List Char) → Char → List (List Char)
  | [], c => [[c]]
  | [l], c => [l ++ [c]]
  | l :: ls, c => l :: appendLast ls c

/-- The wrap test of `fmtText` (line 713):
`conf.width ? (curX + cw > conf.width) : false`. -/
def fmtWrapHit (wrap : Option ℚ) (curX cw : ℚ) : Bool :=
  match wrap with
  | none => false
  | some w => if w = 0 then false else decide (curX + cw > w)

/-- One iteration of the measuring loop of `fmtText` (lines 711-723). -/
def fmtStep (cw ch : ℚ) (wrap : Option ℚ) (acc : FmtAcc) (c : Char) : FmtAcc :=
  let acc :=
    if c = '\n' ∨ fmtWrapHit wrap acc.curX cw = true then
      { acc with th := acc.th + ch, curX := 0, flines := acc.flines ++ [[]] }
    else acc
  let acc :=
    if c ≠ '\n' then
      { acc with flines := appendLast acc.flines c, curX := acc.curX + cw }
    else acc
  { acc with tw := max acc.tw acc.curX }

/-- The full measuring loop of `fmtText`, folded over the characters of
the input from the initial accumulator `⟨0, ch, 0, [[]]⟩`. -/
def fmtAccOf (text : List Char) (font : GfxFont) (conf : DrawTextConf) : FmtAcc :=
  text.foldl (fmtStep (fmtCw font conf) (fmtCh font conf) conf.width)
    ⟨0, fmtCh font conf, 0, [[]]⟩

/-- The glyph-descriptor construction of the emission loop of `fmtText`
(lines 742-758): a character with no entry in the font's character map
yields no descriptor; a mapped one yields a positioned glyph quad.  The
block offset `(ox, oy)`, line offset `oxl`, line number `ln` and column
number `cn` are supplied by the surrounding loops. -/
def fmtGlyph (font : GfxFont) (conf : DrawTextConf) (pos : Vec2)
    (cw ch ox oy oxl : ℚ) (ln cn : ℕ) (c : Char) : Option FormattedChar :=
  match font.map.lookup c with
  | none => none
  | some qpos => some
      { tex := font.tex
        quad := ⟨qpos.x, qpos.y, font.qw, font.qh⟩
        ch := c
        pos := ⟨pos.x + cn * cw + ox + oxl, pos.y + ln * ch + oy⟩
        color := conf.color
        origin := conf.origin
        scale := fmtScale font conf
        z := conf.z }

/-- The `fmtText` function of `gfx.ts` (lines 692-767): measure the
text, override the total width with the configured wrap width when one
is set (lines 725-727), then emit one positioned glyph descriptor per
mapped character, applying the whole-block and per-line anchor
offsets. -/
def fmtText (text : List Char) (font : GfxFont) (conf : DrawTextConf) :
    FormattedText :=
  let cw := fmtCw font conf
  let ch := fmtCh font conf
  let acc := fmtAccOf text font conf
  let tw := match conf.width with
    | none => acc.tw
    | some w => if w = 0 then acc.tw else w
  let th := acc.th
  let pos := conf.pos.getD ⟨0, 0⟩
  let offset := (originPt (conf.origin.getD (.named .topleft))).scaleN (1/2)
  let ox := -offset.x * cw - (offset.x + 1/2) * (tw - cw)
  let oy := -offset.y * ch - (offset.y + 1/2) * (th - ch)
  let fchars := (acc.flines.enum.map (fun lp =>
    lp.2.enum.filterMap (fun cp =>
      fmtGlyph font conf pos cw ch ox oy
        ((tw - lp.2.length * cw) * (offset.x + 1/2)) lp.1 cp.1 cp.2))).flatten
  ⟨tw, th, fchars⟩

/-- The `drawFmtText` function of `gfx.ts` (lines 778-793): replay the
glyph list as center-anchored `drawQuad` calls. -/
def drawFmtText (mo : MathOps) (ftext : FormattedText) (s : GfxState) : GfxState :=
  ftext.chars.foldl (fun s ch =>
    drawQuad mo
      { tex := some ch.tex
        width := some (ch.tex.width * ch.quad.w)
        height := some (ch.tex.height * ch.quad.h)
        pos := some ch.pos
        scale := some (.vec ch.scale)
        color := ch.color
        quad := some ch.quad
        origin := some (.named .center)
        z := ch.z } s) s

/-- The `drawText` function of `gfx.ts` (lines 769-775). -/
def drawText (mo : MathOps) (txt : List Char) (font : GfxFont)
    (conf : DrawTextConf) (s : GfxState) : GfxState :=
  drawFmtText mo (fmtText txt font conf) s

/-- The batch-queue invariant of the spec (§3): the vertex queue length
is a multiple of the stride, and every queued index refers to a vertex
actually present in the vertex queue. -/
def QueueInv (s : GfxState) : Prop :=
  STRIDE ∣ s.vqueue.length ∧ ∀ i ∈ s.iqueue, i < s.vqueue.length / STRIDE

instance (s : GfxState) : Decidable (QueueInv s) := by
  unfold QueueInv; infer_instance

/-- A concrete texture handle used by witnesses and counterexamples. -/
def texA : GfxTexture := ⟨1, 16, 16⟩

/-- A concrete program handle used by witnesses and counterexamples. -/
def progA : GfxProgram := ⟨1⟩

/-- A concrete `MathOps` bundle used by witnesses and counterexamples
(the claims it appears in never depend on its values). -/
def moEx : MathOps := ⟨fun _ => 0, fun _ => 0, fun _ => 0, fun _ _ => 0, 0⟩

/-- A concrete renderer state for witnesses and counterexamples: a
100×100 viewport, empty queues, identity transform, default texture and
program bound. -/
def st0 : GfxState :=
  { width := 100, height := 100, defTex := texA, defProg := progA,
    vqueue := [], iqueue := [], curTex := some texA, curProg := some progA,
    curUniform := [], transform := mat4, transformStack := [],
    drawCalls := 0, lastDrawCalls := 0, drawLog := [], lineLog := [] }

/-- A concrete font for the `fmtText` claims: a 16×16 single-cell atlas
with exactly the characters `a` and `b` mapped. -/
def fontEx : GfxFont :=
  { tex := ⟨2, 16, 16⟩, map := [('a', ⟨0, 0⟩), ('b', ⟨0, 0⟩)], qw := 1, qh := 1 }

/-- A concrete flushable state: nonempty queues, texture and program
bound (one quad's worth of geometry). -/
def stBusy : GfxState :=
  { st0 with vqueue := [0, 0, 0, 0, 0, 0, 0, 0, 0], iqueue := [0] }

/-- A concrete vertex used by witnesses. -/
def vEx : Vertex := ⟨⟨0, 0, 0⟩, ⟨0, 0⟩, ⟨1, 1, 1, 1⟩⟩

/-- A state whose vertex queue is within 6 floats of capacity, so that
one more 9-float vertex overflows it. -/
def stOver : GfxState :=
  { st0 with vqueue := List.replicate 65530 0, iqueue := [0] }

/-- A flushable state whose active uniform set maps `u` to 1 and `v` to
0, stored in an order different from the one the witness requests, so
value-equality versus representation-identity is exercised. -/
def stU : GfxState :=
  { st0 with vqueue := [0, 0, 0, 0, 0, 0, 0, 0, 0], iqueue := [0],
             curUniform := [("v", .num 0), ("u", .num 1)] }

/-- The configuration of the C5 test property: a 10×10 quad anchored at
center, rotation 0, at position (0,0). -/
def conf5 : DrawQuadConf :=
  { width := some 10, height := some 10, pos := some ⟨0, 0⟩,
    rot := some 0, origin := some (.named .center) }

/-! ## Helper lemmas -/

theorem flush_transform (s : GfxState) : (flush s).transform = s.transform := by
  unfold flush; split <;> rfl

theorem flush_transformStack (s : GfxState) :
    (flush s).transformStack = s.transformStack := by
  unfold flush; split <;> rfl

theorem flush_lineLog (s : GfxState) : (flush s).lineLog = s.lineLog := by
  unfold flush; split <;> rfl

theorem flush_vqueue_eq_nil_or (s : GfxState) :
    (flush s).vqueue = s.vqueue ∨ (flush s).vqueue = [] := by
  unfold flush; split
  · exact Or.inl rfl
  · exact Or.inr rfl

theorem flush_noop (s : GfxState)
    (h : s.curTex = none ∨ s.curProg = none ∨ s.vqueue = [] ∨ s.iqueue = []) :
    flush s = s := by
  unfold flush; rw [if_pos h]

theorem flush_act_drawCalls (s : GfxState)
    (h : ¬(s.curTex = none ∨ s.curProg = none ∨ s.vqueue = [] ∨ s.iqueue = [])) :
    (flush s).drawCalls = s.drawCalls + 1 := by
  unfold flush; rw [if_neg h]

theorem flush_act_vqueue (s : GfxState)
    (h : ¬(s.curTex = none ∨ s.curProg = none ∨ s.vqueue = [] ∨ s.iqueue = [])) :
    (flush s).vqueue = [] := by
  unfold flush; rw [if_neg h]

theorem flush_act_iqueue (s : GfxState)
    (h : ¬(s.curTex = none ∨ s.curProg = none ∨ s.vqueue = [] ∨ s.iqueue = [])) :
    (flush s).iqueue = [] := by
  unfold flush; rw [if_neg h]

/-- The draw-call counter produced by `drawRaw` is that of the
intermediate state: the state after the conditional flush (the later
steps never touch it).  Definitional unfolding of `drawRaw`. -/
theorem drawRaw_drawCalls_eq (verts : List Vertex) (indices : List ℕ)
    (tex : Option GfxTexture) (prog : Option GfxProgram) (uniform : Option Uniform)
    (s : GfxState) :
    (drawRaw verts indices tex prog uniform s).drawCalls =
      (if some (tex.getD s.defTex) ≠ s.curTex
          ∨ some (prog.getD s.defProg) ≠ s.curProg
          ∨ deepEq s.curUniform (uniform.getD []) = false
          ∨ s.vqueue.length + verts.length * STRIDE > QUEUE_COUNT
          ∨ s.iqueue.length + indices.length > QUEUE_COUNT
        then flush s else s).drawCalls := rfl

/-- The index queue produced by `drawRaw`: the post-flush index queue
with the emitted indices appended, each offset by the vertex count of
the post-flush vertex queue.  Definitional unfolding of `drawRaw`. -/
theorem drawRaw_iqueue_eq (verts : List Vertex) (indices : List ℕ)
    (tex : Option GfxTexture) (prog : Option GfxProgram) (uniform : Option Uniform)
    (s : GfxState) :
    (drawRaw verts indices tex prog uniform s).iqueue =
      (if some (tex.getD s.defTex) ≠ s.curTex
          ∨ some (prog.getD s.defProg) ≠ s.curProg
          ∨ deepEq s.curUniform (uniform.getD []) = false
          ∨ s.vqueue.length + verts.length * STRIDE > QUEUE_COUNT
          ∨ s.iqueue.length + indices.length > QUEUE_COUNT
        then flush s else s).iqueue
      ++ indices.map (fun i => i +
        (if some (tex.getD s.defTex) ≠ s.curTex
            ∨ some (prog.getD s.defProg) ≠ s.curProg
            ∨ deepEq s.curUniform (uniform.getD []) = false
            ∨ s.vqueue.length + verts.length * STRIDE > QUEUE_COUNT
            ∨ s.iqueue.length + indices.length > QUEUE_COUNT
          then flush s else s).vqueue.length / STRIDE) := rfl

theorem pushTransform_transform (s : GfxState) :
    (pushTransform s).transform = s.transform := rfl

theorem pushTransform_transformStack (s : GfxState) :
    (pushTransform s).transformStack = s.transform :: s.transformStack := rfl

theorem pushTransform_lineLog (s : GfxState) :
    (pushTransform s).lineLog = s.lineLog := rfl

theorem pushTranslate_transformStack (p : Vec2) (s : GfxState) :
    (pushTranslate p s).transformStack = s.transformStack := by
  unfold pushTranslate; split <;> rfl

theorem pushTranslate_lineLog (p : Vec2) (s : GfxState) :
    (pushTranslate p s).lineLog = s.lineLog := by
  unfold pushTranslate; split <;> rfl

theorem pushScale_transformStack (p : Vec2) (s : GfxState) :
    (pushScale p s).transformStack = s.transformStack := by
  unfold pushScale; split <;> rfl

theorem pushScale_lineLog (p : Vec2) (s : GfxState) :
    (pushScale p s).lineLog = s.lineLog := by
  unfold pushScale; split <;> rfl

theorem pushRotateZ_transformStack (mo : MathOps) (a : ℚ) (s : GfxState) :
    (pushRotateZ mo a s).transformStack = s.transformStack := by
  unfold pushRotateZ; split <;> rfl

theorem pushRotateZ_lineLog (mo : MathOps) (a : ℚ) (s : GfxState) :
    (pushRotateZ mo a s).lineLog = s.lineLog := by
  unfold pushRotateZ; split <;> rfl

theorem popTransform_lineLog (s : GfxState) :
    (popTransform s).lineLog = s.lineLog := by
  unfold popTransform; split <;> rfl

/-- Popping on a state whose stack is known restores the saved matrix
and the rest of the stack. -/
theorem popTransform_of_stack {m : Mat4} {rest : List Mat4} (t : GfxState)
    (h : t.transformStack = m :: rest) :
    (popTransform t).transform = m ∧ (popTransform t).transformStack = rest := by
  unfold popTransform
  rw [h]
  exact ⟨rfl, rfl⟩

theorem drawRaw_transform (verts : List Vertex) (indices : List ℕ)
    (tex : Option GfxTexture) (prog : Option GfxProgram) (uniform : Option Uniform)
    (s : GfxState) :
    (drawRaw verts indices tex prog uniform s).transform = s.transform := by
  show (if some (tex.getD s.defTex) ≠ s.curTex
      ∨ some (prog.getD s.defProg) ≠ s.curProg
      ∨ deepEq s.curUniform (uniform.getD []) = false
      ∨ s.vqueue.length + verts.length * STRIDE > QUEUE_COUNT
      ∨ s.iqueue.length + indices.length > QUEUE_COUNT
    then flush s else s).transform = s.transform
  split
  · exact flush_transform s
  · rfl

theorem drawRaw_transformStack (verts : List Vertex) (indices : List ℕ)
    (tex : Option GfxTexture) (prog : Option GfxProgram) (uniform : Option Uniform)
    (s : GfxState) :
    (drawRaw verts indices tex prog uniform s).transformStack = s.transformStack := by
  show (if some (tex.getD s.defTex) ≠ s.curTex
      ∨ some (prog.getD s.defProg) ≠ s.curProg
      ∨ deepEq s.curUniform (uniform.getD []) = false
      ∨ s.vqueue.length + verts.length * STRIDE > QUEUE_COUNT
      ∨ s.iqueue.length + indices.length > QUEUE_COUNT
    then flush s else s).transformStack = s.transformStack
  split
  · exact flush_transformStack s
  · rfl

theorem drawRaw_lineLog (verts : List Vertex) (indices : List ℕ)
    (tex : Option GfxTexture) (prog : Option GfxProgram) (uniform : Option Uniform)
    (s : GfxState) :
    (drawRaw verts indices tex prog uniform s).lineLog = s.lineLog := by
  show (if some (tex.getD s.defTex) ≠ s.curTex
      ∨ some (prog.getD s.defProg) ≠ s.curProg
      ∨ deepEq s.curUniform (uniform.getD []) = false
      ∨ s.vqueue.length + verts.length * STRIDE > QUEUE_COUNT
      ∨ s.iqueue.length + indices.length > QUEUE_COUNT
    then flush s else s).lineLog = s.lineLog
  split
  · exact flush_lineLog s
  · rfl

/-- `drawQuad` restores the active transform and the transform stack
exactly: the internal translate/scale/rotate composition is bracketed
between one `pushTransform` and one `popTransform`. -/
theorem drawQuad_transform_stack (mo : MathOps) (conf : DrawQuadConf) (s : GfxState) :
    (drawQuad mo conf s).transform = s.transform
    ∧ (drawQuad mo conf s).transformStack = s.transformStack := by
  apply popTransform_of_stack
  rw [drawRaw_transformStack, pushTranslate_transformStack, pushRotateZ_transformStack,
    pushScale_transformStack, pushTranslate_transformStack, pushTransform_transformStack]

/-- `drawQuad` never records a `drawLine` invocation. -/
theorem drawQuad_lineLog (mo : MathOps) (conf : DrawQuadConf) (s : GfxState) :
    (drawQuad mo conf s).lineLog = s.lineLog := by
  show (popTransform (drawRaw _ _ conf.tex conf.prog conf.uniform
    (pushTranslate _ (pushRotateZ mo _ (pushScale _ (pushTranslate _ (pushTransform s))))))).lineLog
      = s.lineLog
  rw [popTransform_lineLog, drawRaw_lineLog, pushTranslate_lineLog, pushRotateZ_lineLog,
    pushScale_lineLog, pushTranslate_lineLog, pushTransform_lineLog]

/-- The effect of `drawLine` on the ghost `lineLog`: exactly one
invocation record, with the given endpoints, is appended. -/
theorem drawLine_lineLog (mo : MathOps) (p1 p2 : Vec2) (conf : DrawRectStrokeConf)
    (s : GfxState) :
    (drawLine mo p1 p2 conf s).lineLog = s.lineLog ++ [(p1, p2)] := by
  show (drawQuad mo _ { s with lineLog := s.lineLog ++ [(p1, p2)] }).lineLog
      = s.lineLog ++ [(p1, p2)]
  rw [drawQuad_lineLog]

theorem drawLine_transform_stack (mo : MathOps) (p1 p2 : Vec2)
    (conf : DrawRectStrokeConf) (s : GfxState) :
    (drawLine mo p1 p2 conf s).transform = s.transform
    ∧ (drawLine mo p1 p2 conf s).transformStack = s.transformStack := by
  show (drawQuad mo _ { s with lineLog := s.lineLog ++ [(p1, p2)] }).transform = s.transform
    ∧ (drawQuad mo _ { s with lineLog := s.lineLog ++ [(p1, p2)] }).transformStack
        = s.transformStack
  exact drawQuad_transform_stack mo _ _

theorem drawQuad_transform (mo : MathOps) (conf : DrawQuadConf) (s : GfxState) :
    (drawQuad mo conf s).transform = s.transform :=
  (drawQuad_transform_stack mo conf s).1

theorem drawQuad_transformStack (mo : MathOps) (conf : DrawQuadConf) (s : GfxState) :
    (drawQuad mo conf s).transformStack = s.transformStack :=
  (drawQuad_transform_stack mo conf s).2

theorem drawLine_transform (mo : MathOps) (p1 p2 : Vec2) (conf : DrawRectStrokeConf)
    (s : GfxState) : (drawLine mo p1 p2 conf s).transform = s.transform :=
  (drawLine_transform_stack mo p1 p2 conf s).1

theorem drawLine_transformStack (mo : MathOps) (p1 p2 : Vec2) (conf : DrawRectStrokeConf)
    (s : GfxState) : (drawLine mo p1 p2 conf s).transformStack = s.transformStack :=
  (drawLine_transform_stack mo p1 p2 conf s).2

theorem drawRectStroke_transform_stack (mo : MathOps) (pos : Vec2) (w h : ℚ)
    (conf : DrawRectStrokeConf) (s : GfxState) :
    (drawRectStroke mo pos w h conf s).transform = s.transform
    ∧ (drawRectStroke mo pos w h conf s).transformStack = s.transformStack := by
  constructor <;>
    simp only [drawRectStroke, drawLine_transform, drawLine_transformStack]

/-- A fold of transform-and-stack preserving steps preserves the
transform and the stack. -/
theorem foldl_transform_stack {α : Type _} (f : GfxState → α → GfxState)
    (hf : ∀ s a, (f s a).transform = s.transform
      ∧ (f s a).transformStack = s.transformStack) (l : List α) :
    ∀ s : GfxState, (l.foldl f s).transform = s.transform
      ∧ (l.foldl f s).transformStack = s.transformStack := by
  induction l with
  | nil => exact fun s => ⟨rfl, rfl⟩
  | cons a t ih =>
      intro s
      exact ⟨(ih (f s a)).1.trans (hf s a).1, (ih (f s a)).2.trans (hf s a).2⟩

theorem drawFmtText_transform_stack (mo : MathOps) (ftext : FormattedText)
    (s : GfxState) :
    (drawFmtText mo ftext s).transform = s.transform
    ∧ (drawFmtText mo ftext s).transformStack = s.transformStack := by
  unfold drawFmtText
  exact foldl_transform_stack _ (fun s a => drawQuad_transform_stack mo _ s) ftext.chars s

theorem pushTransform_vqueue (s : GfxState) : (pushTransform s).vqueue = s.vqueue := rfl

theorem pushTransform_iqueue (s : GfxState) : (pushTransform s).iqueue = s.iqueue := rfl

theorem pushTranslate_vqueue (p : Vec2) (s : GfxState) :
    (pushTranslate p s).vqueue = s.vqueue := by
  unfold pushTranslate; split <;> rfl

theorem pushTranslate_iqueue (p : Vec2) (s : GfxState) :
    (pushTranslate p s).iqueue = s.iqueue := by
  unfold pushTranslate; split <;> rfl

theorem pushScale_vqueue (p : Vec2) (s : GfxState) :
    (pushScale p s).vqueue = s.vqueue := by
  unfold pushScale; split <;> rfl

theorem pushScale_iqueue (p : Vec2) (s : GfxState) :
    (pushScale p s).iqueue = s.iqueue := by
  unfold pushScale; split <;> rfl

theorem pushRotateZ_vqueue (mo : MathOps) (a : ℚ) (s : GfxState) :
    (pushRotateZ mo a s).vqueue = s.vqueue := by
  unfold pushRotateZ; split <;> rfl

theorem pushRotateZ_iqueue (mo : MathOps) (a : ℚ) (s : GfxState) :
    (pushRotateZ mo a s).iqueue = s.iqueue := by
  unfold pushRotateZ; split <;> rfl

theorem popTransform_vqueue (s : GfxState) : (popTransform s).vqueue = s.vqueue := by
  unfold popTransform; split <;> rfl

theorem popTransform_iqueue (s : GfxState) : (popTransform s).iqueue = s.iqueue := by
  unfold popTransform; split <;> rfl

/-- The queue invariant only looks at the two queues. -/
theorem queueInv_congr (t : GfxState) {u : GfxState}
    (hv : u.vqueue = t.vqueue) (hi : u.iqueue = t.iqueue) (h : QueueInv t) :
    QueueInv u := by
  unfold QueueInv at h ⊢
  rw [hv, hi]
  exact h

theorem queueInv_flush (s : GfxState) (h : QueueInv s) : QueueInv (flush s) := by
  unfold flush
  split
  · exact h
  · exact ⟨⟨0, rfl⟩, by intro i hi; simp at hi⟩

theorem queueInv_popTransform (s : GfxState) (h : QueueInv s) :
    QueueInv (popTransform s) :=
  queueInv_congr s (popTransform_vqueue s) (popTransform_iqueue s) h

/-- Every vertex contributes exactly nine floats. -/
theorem length_vertexFloats (st : GfxState) (v : Vertex) :
    (vertexFloats st v).length = STRIDE := rfl

/-- The flattened float list of a vertex list has nine floats per
vertex. -/
theorem length_flatten_vertexFloats (st : GfxState) (l : List Vertex) :
    ((l.map (vertexFloats st)).flatten).length = l.length * STRIDE := by
  induction l with
  | nil => rfl
  | cons v t ih =>
      simp only [List.map_cons, List.flatten_cons, List.length_append, ih,
        length_vertexFloats, List.length_cons]
      ring

/-- The length of the vertex queue produced by `drawRaw`: the post-flush
length plus nine floats per emitted vertex. -/
theorem drawRaw_vqueue_length (verts : List Vertex) (indices : List ℕ)
    (tex : Option GfxTexture) (prog : Option GfxProgram) (uniform : Option Uniform)
    (s : GfxState) :
    (drawRaw verts indices tex prog uniform s).vqueue.length =
      (if some (tex.getD s.defTex) ≠ s.curTex
          ∨ some (prog.getD s.defProg) ≠ s.curProg
          ∨ deepEq s.curUniform (uniform.getD []) = false
          ∨ s.vqueue.length + verts.length * STRIDE > QUEUE_COUNT
          ∨ s.iqueue.length + indices.length > QUEUE_COUNT
        then flush s else s).vqueue.length + verts.length * STRIDE := by
  show ((if some (tex.getD s.defTex) ≠ s.curTex
          ∨ some (prog.getD s.defProg) ≠ s.curProg
          ∨ deepEq s.curUniform (uniform.getD []) = false
          ∨ s.vqueue.length + verts.length * STRIDE > QUEUE_COUNT
          ∨ s.iqueue.length + indices.length > QUEUE_COUNT
        then flush s else s).vqueue
      ++ (verts.map (vertexFloats
        { (if some (tex.getD s.defTex) ≠ s.curTex
              ∨ some (prog.getD s.defProg) ≠ s.curProg
              ∨ deepEq s.curUniform (uniform.getD []) = false
              ∨ s.vqueue.length + verts.length * STRIDE > QUEUE_COUNT
              ∨ s.iqueue.length + indices.length > QUEUE_COUNT
            then flush s else s) with
          curTex := some (tex.getD s.defTex)
          curProg := some (prog.getD s.defProg)
          curUniform := uniform.getD [] })).flatten).length = _
  rw [List.length_append, length_flatten_vertexFloats]

/-- `drawRaw` preserves the queue invariant whenever the emitted local
indices are valid for the emitted vertex list (every triangulation the
source emits satisfies this). -/
theorem queueInv_drawRaw (verts : List Vertex) (indices : List ℕ)
    (tex : Option GfxTexture) (prog : Option GfxProgram) (uniform : Option Uniform)
    (s : GfxState) (h : QueueInv s) (hidx : ∀ i ∈ indices, i < verts.length) :
    QueueInv (drawRaw verts indices tex prog uniform s) := by
  have hpos : 0 < STRIDE := by norm_num [STRIDE]
  have h1 : QueueInv (if some (tex.getD s.defTex) ≠ s.curTex
      ∨ some (prog.getD s.defProg) ≠ s.curProg
      ∨ deepEq s.curUniform (uniform.getD []) = false
      ∨ s.vqueue.length + verts.length * STRIDE > QUEUE_COUNT
      ∨ s.iqueue.length + indices.length > QUEUE_COUNT
    then flush s else s) := by
    split
    · exact queueInv_flush s h
    · exact h
  have hdiv : ((if some (tex.getD s.defTex) ≠ s.curTex
      ∨ some (prog.getD s.defProg) ≠ s.curProg
      ∨ deepEq s.curUniform (uniform.getD []) = false
      ∨ s.vqueue.length + verts.length * STRIDE > QUEUE_COUNT
      ∨ s.iqueue.length + indices.length > QUEUE_COUNT
    then flush s else s).vqueue.length + verts.length * STRIDE) / STRIDE
      = (if some (tex.getD s.defTex) ≠ s.curTex
      ∨ some (prog.getD s.defProg) ≠ s.curProg
      ∨ deepEq s.curUniform (uniform.getD []) = false
      ∨ s.vqueue.length + verts.length * STRIDE > QUEUE_COUNT
      ∨ s.iqueue.length + indices.length > QUEUE_COUNT
    then flush s else s).vqueue.length / STRIDE + verts.length :=
    Nat.add_mul_div_right _ _ hpos
  constructor
  · rw [drawRaw_vqueue_length]
    exact Nat.dvd_add h1.1 (Dvd.intro_left _ rfl)
  · intro i hi
    rw [drawRaw_iqueue_eq] at hi
    rw [drawRaw_vqueue_length, hdiv]
    rcases List.mem_append.mp hi with hold | hnew
    · have := h1.2 i hold
      omega
    · rcases List.mem_map.mp hnew with ⟨j, hj, rfl⟩
      have := hidx j hj
      omega

/-- `drawQuad` preserves the queue invariant: it emits four vertices
with the triangle indices `[0,1,3,1,2,3]`, all of which are valid. -/
theorem queueInv_drawQuad (mo : MathOps) (conf : DrawQuadConf) (s : GfxState)
    (h : QueueInv s) : QueueInv (drawQuad mo conf s) := by
  apply queueInv_popTransform
  apply queueInv_drawRaw
  · apply queueInv_congr s _ _ h
    · rw [pushTranslate_vqueue, pushRotateZ_vqueue, pushScale_vqueue,
        pushTranslate_vqueue, pushTransform_vqueue]
    · rw [pushTranslate_iqueue, pushRotateZ_iqueue, pushScale_iqueue,
        pushTranslate_iqueue, pushTransform_iqueue]
  · intro i hi
    simp only [List.mem_cons, List.not_mem_nil, or_false] at hi
    rcases hi with rfl | rfl | rfl | rfl | rfl | rfl <;> simp

theorem queueInv_drawLine (mo : MathOps) (p1 p2 : Vec2) (conf : DrawRectStrokeConf)
    (s : GfxState) (h : QueueInv s) : QueueInv (drawLine mo p1 p2 conf s) := by
  apply queueInv_drawQuad
  exact queueInv_congr s rfl rfl h

theorem queueInv_drawRectStroke (mo : MathOps) (pos : Vec2) (w h : ℚ)
    (conf : DrawRectStrokeConf) (s : GfxState) (hI : QueueInv s) :
    QueueInv (drawRectStroke mo pos w h conf s) := by
  unfold drawRectStroke
  exact queueInv_drawLine mo _ _ _ _ (queueInv_drawLine mo _ _ _ _
    (queueInv_drawLine mo _ _ _ _ (queueInv_drawLine mo _ _ _ _ hI)))

/-- A fold of invariant-preserving steps preserves the invariant. -/
theorem foldl_queueInv {α : Type _} (f : GfxState → α → GfxState)
    (hf : ∀ s a, QueueInv s → QueueInv (f s a)) (l : List α) :
    ∀ s : GfxState, QueueInv s → QueueInv (l.foldl f s) := by
  induction l with
  | nil => exact fun s h => h
  | cons a t ih => exact fun s h => ih (f s a) (hf s a h)

theorem queueInv_drawFmtText (mo : MathOps) (ftext : FormattedText) (s : GfxState)
    (h : QueueInv s) : QueueInv (drawFmtText mo ftext s) := by
  unfold drawFmtText
  exact foldl_queueInv _ (fun s a => queueInv_drawQuad mo _ s) ftext.chars s h

theorem flatten_appendLast (l : List (List Char)) (c : Char) :
    (appendLast l c).flatten = l.flatten ++ [c] := by
  induction l with
  | nil => rfl
  | cons hd tl ih =>
      cases tl with
      | nil => simp [appendLast]
      | cons h2 t2 =>
          show (hd :: appendLast (h2 :: t2) c).flatten = _
          simp [ih]

theorem length_appendLast (l : List (List Char)) (c : Char) (h : l ≠ []) :
    (appendLast l c).length = l.length := by
  induction l with
  | nil => exact absurd rfl h
  | cons hd tl ih =>
      cases tl with
      | nil => rfl
      | cons h2 t2 =>
          show (hd :: appendLast (h2 :: t2) c).length = _
          simp only [List.length_cons, ih (by simp)]

theorem appendLast_concat (init : List (List Char)) (last : List Char) (c : Char) :
    appendLast (init ++ [last]) c = init ++ [last ++ [c]] := by
  induction init with
  | nil => rfl
  | cons hd tl ih =>
      cases h : tl ++ [last] with
      | nil => exact absurd h (by simp)
      | cons h2 t2 =>
          show appendLast (hd :: tl ++ [last]) c = _
          rw [List.cons_append, h]
          show hd :: appendLast (h2 :: t2) c = _
          rw [← h, ih]
          rfl

/-- One measuring step extends the flattened line content by the
character, unless it is a newline. -/
theorem fmtStep_flines_flatten (cw ch : ℚ) (wrap : Option ℚ) (acc : FmtAcc) (c : Char) :
    (fmtStep cw ch wrap acc c).flines.flatten
      = acc.flines.flatten ++ if c = '\n' then [] else [c] := by
  by_cases h2 : c = '\n'
  · subst h2
    simp [fmtStep]
  · by_cases h1 : fmtWrapHit wrap acc.curX cw = true
    · simp [fmtStep, h1, h2, flatten_appendLast]
    · simp [fmtStep, h1, h2, flatten_appendLast]

/-- The measuring fold accumulates exactly the non-newline characters,
in order, into the flattened lines. -/
theorem fmtFold_flines_flatten (cw ch : ℚ) (wrap : Option ℚ) :
    ∀ (text : List Char) (acc : FmtAcc),
      (text.foldl (fmtStep cw ch wrap) acc).flines.flatten
        = acc.flines.flatten ++ text.filter (fun c => c ≠ '\n') := by
  intro text
  induction text with
  | nil => intro acc; simp
  | cons c t ih =>
      intro acc
      rw [List.foldl_cons, ih, fmtStep_flines_flatten]
      by_cases h : c = '\n' <;> simp [h]

/-- The flattened lines of the full measuring loop are the non-newline
characters of the input, in order. -/
theorem fmtAccOf_flines_flatten (text : List Char) (font : GfxFont)
    (conf : DrawTextConf) :
    (fmtAccOf text font conf).flines.flatten
      = text.filter (fun c => c ≠ '\n') := by
  unfold fmtAccOf
  rw [fmtFold_flines_flatten]
  rfl

/-- The character recorded in a glyph descriptor is the input character,
and a descriptor is produced exactly for mapped characters. -/
theorem fmtGlyph_map_ch (font : GfxFont) (conf : DrawTextConf) (pos : Vec2)
    (cw ch ox oy oxl : ℚ) (ln cn : ℕ) (c : Char) :
    (fmtGlyph font conf pos cw ch ox oy oxl ln cn c).map (fun fc => fc.ch)
      = if (font.map.lookup c).isSome then some c else none := by
  cases h : font.map.lookup c <;> simp [fmtGlyph, h]

/-- Filtering an enumerated list with an index-independent function is
filtering the list itself. -/
theorem filterMap_enumFrom_snd {β : Type _} (g : Char → Option β) :
    ∀ (l : List Char) (n : ℕ),
      (List.enumFrom n l).filterMap (fun cp => g cp.2) = l.filterMap g := by
  intro l
  induction l with
  | nil => intro n; rfl
  | cons c t ih =>
      intro n
      show ((n, c) :: List.enumFrom (n + 1) t).filterMap _ = _
      rw [List.filterMap_cons, List.filterMap_cons]
      cases g c <;> simp [ih]

theorem filterMap_enum_snd {β : Type _} (g : Char → Option β) (l : List Char) :
    l.enum.filterMap (fun cp => g cp.2) = l.filterMap g :=
  filterMap_enumFrom_snd g l 0

theorem filterMap_ite_some (p : Char → Bool) (l : List Char) :
    l.filterMap (fun c => if p c then some c else none) = l.filter p := by
  induction l with
  | nil => rfl
  | cons c t ih =>
      rw [List.filterMap_cons, List.filter_cons]
      cases h : p c <;> simp [h, ih]

/-- Mapping an enumerated list with an index-independent function is
mapping the list itself. -/
theorem map_enumFrom_snd {α β : Type _} (f : α → β) :
    ∀ (L : List α) (n : ℕ), (List.enumFrom n L).map (fun lp => f lp.2) = L.map f := by
  intro L
  induction L with
  | nil => intro n; rfl
  | cons l t ih =>
      intro n
      show f l :: _ = _
      rw [ih (n + 1)]
      rfl

theorem map_enum_snd_fun {α β : Type _} (f : α → β) (L : List α) :
    L.enum.map (fun lp => f lp.2) = L.map f :=
  map_enumFrom_snd f L 0

theorem flatten_map_filter {α : Type _} (p : α → Bool) (L : List (List α)) :
    (L.map (fun l => l.filter p)).flatten = L.flatten.filter p := by
  induction L with
  | nil => rfl
  | cons l t ih =>
      rw [List.map_cons, List.flatten_cons, ih, List.flatten_cons, List.filter_append]

/-- The glyph descriptors of `fmtText` carry, in order, exactly the
mapped characters among the flattened measured lines. -/
theorem fmtText_chars_map_ch (text : List Char) (font : GfxFont)
    (conf : DrawTextConf) :
    (fmtText text font conf).chars.map (fun fc => fc.ch)
      = ((fmtAccOf text font conf).flines.flatten).filter
          (fun c => (font.map.lookup c).isSome) := by
  show (((fmtAccOf text font conf).flines.enum.map _).flatten).map _ = _
  rw [List.map_flatten, List.map_map]
  simp only [Function.comp_def, List.map_filterMap, fmtGlyph_map_ch]
  simp only [filterMap_enum_snd (fun c =>
    if (font.map.lookup c).isSome then some c else none)]
  simp only [filterMap_ite_some (fun c => (font.map.lookup c).isSome)]
  rw [map_enum_snd_fun (fun l => l.filter (fun c => (font.map.lookup c).isSome))
      (fmtAccOf text font conf).flines,
    flatten_map_filter]

theorem appendLast_ne_nil (l : List (List Char)) (c : Char) :
    appendLast l c ≠ [] := by
  cases l with
  | nil => simp [appendLast]
  | cons hd tl => cases tl <;> simp [appendLast]

/-- One measuring step keeps `th = lines × lineHeight` in lockstep: the
height grows by `ch` exactly when a line is added. -/
theorem fmtStep_th_lines (cw ch : ℚ) (wrap : Option ℚ) (acc : FmtAcc) (c : Char)
    (h : acc.flines ≠ []) :
    (fmtStep cw ch wrap acc c).flines ≠ []
    ∧ (fmtStep cw ch wrap acc c).th + (acc.flines.length : ℚ) * ch
        = acc.th + ((fmtStep cw ch wrap acc c).flines.length : ℚ) * ch := by
  unfold fmtStep
  by_cases h1 : (c = '\n' ∨ fmtWrapHit wrap acc.curX cw = true) <;>
    by_cases h2 : c = '\n'
  · simp only [if_pos h1, if_neg (by simp [h2] : ¬ c ≠ '\n')]
    refine ⟨by simp, ?_⟩
    push_cast [List.length_append, List.length_singleton]
    ring
  · simp only [if_pos h1, if_pos h2]
    refine ⟨appendLast_ne_nil _ _, ?_⟩
    rw [length_appendLast _ _ (by simp)]
    push_cast [List.length_append, List.length_singleton]
    ring
  · exact absurd (Or.inl h2) h1
  · simp only [if_neg h1, if_pos h2]
    exact ⟨appendLast_ne_nil _ _, by rw [length_appendLast _ _ h]⟩

/-- The measuring fold keeps `th = lines × lineHeight` in lockstep. -/
theorem fmtFold_th_lines (cw ch : ℚ) (wrap : Option ℚ) :
    ∀ (text : List Char) (acc : FmtAcc), acc.flines ≠ [] →
      (text.foldl (fmtStep cw ch wrap) acc).flines ≠ []
      ∧ (text.foldl (fmtStep cw ch wrap) acc).th + (acc.flines.length : ℚ) * ch
          = acc.th + ((text.foldl (fmtStep cw ch wrap) acc).flines.length : ℚ) * ch := by
  intro text
  induction text with
  | nil =>
      refine fun acc h => ⟨h, ?_⟩
      simp only [List.foldl_nil]
  | cons c t ih =>
      intro acc h
      have hs := fmtStep_th_lines cw ch wrap acc c h
      have ht := ih (fmtStep cw ch wrap acc c) hs.1
      rw [List.foldl_cons]
      exact ⟨ht.1, by linarith [hs.2, ht.2]⟩

/-- The total height returned by `fmtText` is always the number of
measured lines times the line height. -/
theorem fmtText_height_eq (text : List Char) (font : GfxFont) (conf : DrawTextConf) :
    (fmtText text font conf).height
      = ((fmtAccOf text font conf).flines.length : ℚ) * fmtCh font conf := by
  have h := (fmtFold_th_lines (fmtCw font conf) (fmtCh font conf) conf.width text
    ⟨0, fmtCh font conf, 0, [[]]⟩ (by simp)).2
  show (fmtAccOf text font conf).th = _
  have hacc : fmtAccOf text font conf
      = text.foldl (fmtStep (fmtCw font conf) (fmtCh font conf) conf.width)
          ⟨0, fmtCh font conf, 0, [[]]⟩ := rfl
  rw [hacc]
  simp only [List.length_cons, List.length_nil, zero_add, Nat.cast_one] at h
  linarith [h]

/-- With no wrap width configured, one measuring step either starts a
new empty line (on a newline) or appends the character to the last
line, and updates the running width maximum accordingly. -/
theorem fmtStep_no_wrap (cw ch : ℚ) (acc : FmtAcc) (c : Char) :
    fmtStep cw ch none acc c =
      if c = '\n' then
        { acc with
          th := acc.th + ch
          curX := 0
          flines := acc.flines ++ [[]]
          tw := max acc.tw 0 }
      else
        { acc with
          flines := appendLast acc.flines c
          curX := acc.curX + cw
          tw := max acc.tw (acc.curX + cw) } := by
  by_cases h2 : c = '\n'
  · simp [fmtStep, fmtWrapHit, h2]
  · simp [fmtStep, fmtWrapHit, h2]

/-- Folding `max` over a list extended by one element. -/
theorem foldl_max_snoc (cw : ℚ) (L : List (List Char)) (x : List Char) :
    ((L ++ [x]).map (fun l => (l.length : ℚ) * cw)).foldl max 0
      = max ((L.map (fun l => (l.length : ℚ) * cw)).foldl max 0)
          ((x.length : ℚ) * cw) := by
  rw [List.map_append, List.foldl_append]
  rfl

/-- The running-width invariant of the measuring loop, with no wrap
width configured and a nonnegative character advance: the lines are
nonempty, the cursor is at the end of the last line, and `tw` is the
maximum over the line widths reached so far. -/
theorem fmtStep_tw (cw ch : ℚ) (hcw : 0 ≤ cw) (acc : FmtAcc) (c : Char)
    (init : List (List Char)) (last : List Char)
    (hfl : acc.flines = init ++ [last])
    (hx : acc.curX = (last.length : ℚ) * cw)
    (htw : acc.tw = ((init ++ [last]).map (fun l => (l.length : ℚ) * cw)).foldl max 0)
    (h0 : 0 ≤ acc.tw) :
    ∃ init2 last2,
      (fmtStep cw ch none acc c).flines = init2 ++ [last2]
      ∧ (fmtStep cw ch none acc c).curX = (last2.length : ℚ) * cw
      ∧ (fmtStep cw ch none acc c).tw
          = ((init2 ++ [last2]).map (fun l => (l.length : ℚ) * cw)).foldl max 0
      ∧ 0 ≤ (fmtStep cw ch none acc c).tw := by
  rw [fmtStep_no_wrap]
  by_cases h2 : c = '\n'
  · rw [if_pos h2]
    refine ⟨init ++ [last], [], ?_, by simp, ?_, ?_⟩
    · show acc.flines ++ [[]] = _
      rw [hfl]
    · show max acc.tw 0 = _
      rw [foldl_max_snoc, ← htw]
      simp
    · exact le_max_right _ _
  · rw [if_neg h2]
    refine ⟨init, last ++ [c], ?_, ?_, ?_, ?_⟩
    · show appendLast acc.flines c = _
      rw [hfl, appendLast_concat]
    · show acc.curX + cw = _
      rw [hx]
      push_cast [List.length_append, List.length_singleton]
      ring
    · show max acc.tw (acc.curX + cw) = _
      rw [foldl_max_snoc, htw, foldl_max_snoc, hx, max_assoc]
      congr 1
      rw [max_eq_right]
      · push_cast [List.length_append, List.length_singleton]
        ring
      · linarith [hcw]
    · exact le_trans h0 (le_max_left _ _)

/-- The measuring fold maintains the running-width invariant. -/
theorem fmtFold_tw (cw ch : ℚ) (hcw : 0 ≤ cw) :
    ∀ (text : List Char) (acc : FmtAcc) (init : List (List Char)) (last : List Char),
      acc.flines = init ++ [last] →
      acc.curX = (last.length : ℚ) * cw →
      acc.tw = ((init ++ [last]).map (fun l => (l.length : ℚ) * cw)).foldl max 0 →
      0 ≤ acc.tw →
      ∃ init2 last2,
        (text.foldl (fmtStep cw ch none) acc).flines = init2 ++ [last2]
        ∧ (text.foldl (fmtStep cw ch none) acc).curX = (last2.length : ℚ) * cw
        ∧ (text.foldl (fmtStep cw ch none) acc).tw
            = ((init2 ++ [last2]).map (fun l => (l.length : ℚ) * cw)).foldl max 0
        ∧ 0 ≤ (text.foldl (fmtStep cw ch none) acc).tw := by
  intro text
  induction text with
  | nil =>
      intro acc init last hfl hx htw h0
      exact ⟨init, last, hfl, hx, htw, h0⟩
  | cons c t ih =>
      intro acc init last hfl hx htw h0
      obtain ⟨i2, l2, e1, e2, e3, e4⟩ := fmtStep_tw cw ch hcw acc c init last hfl hx htw h0
      rw [List.foldl_cons]
      exact ih (fmtStep cw ch none acc c) i2 l2 e1 e2 e3 e4

/-- With no wrap width configured (and a nonnegative character
advance), the total width returned by `fmtText` is the maximum over
the widths of the measured lines. -/
theorem fmtText_width_no_wrap (text : List Char) (font : GfxFont)
    (conf : DrawTextConf) (hw : conf.width = none) (hcw : 0 ≤ fmtCw font conf) :
    (fmtText text font conf).width
      = ((fmtAccOf text font conf).flines.map
          (fun l => (l.length : ℚ) * fmtCw font conf)).foldl max 0 := by
  have hacc : fmtAccOf text font conf
      = text.foldl (fmtStep (fmtCw font conf) (fmtCh font conf) none)
          ⟨0, fmtCh font conf, 0, [[]]⟩ := by
    unfold fmtAccOf
    rw [hw]
  obtain ⟨i2, l2, e1, _, e3, _⟩ := fmtFold_tw (fmtCw font conf) (fmtCh font conf)
    hcw text ⟨0, fmtCh font conf, 0, [[]]⟩ [] [] rfl (by simp) (by simp) le_rfl
  have hwidth : (fmtText text font conf).width = (fmtAccOf text font conf).tw := by
    show (match conf.width with
      | none => (fmtAccOf text font conf).tw
      | some w => if w = 0 then (fmtAccOf text font conf).tw else w) = _
    rw [hw]
  rw [hwidth, hacc, e3, e1]

/-- With a nonzero wrap width configured, `fmtText` returns that wrap
width as the total width, regardless of the measured lines. -/
theorem fmtText_width_wrap (text : List Char) (font : GfxFont)
    (conf : DrawTextConf) (w : ℚ) (hw : conf.width = some w) (hnz : w ≠ 0) :
    (fmtText text font conf).width = w := by
  show (match conf.width with
    | none => (fmtAccOf text font conf).tw
    | some w => if w = 0 then (fmtAccOf text font conf).tw else w) = _
  rw [hw]
  exact if_neg hnz

/-! ## Claim C7 -/

/-- C7 (amended): `fmtText`'s returned total height always equals the
number of layout lines times the line height; when no wrap width is
configured (and the character advance is nonnegative) the returned
total width equals the maximum line width reached during layout; but
when a nonzero wrap width is configured the returned width is that
configured wrap width, not the maximum reached line width.  Concretely,
`fmtText "a\nb" fontEx {}` produces 2 lines with total height
`2 × 16 = 32`, and `fmtText "ab" fontEx {}` produces two glyph entries
in left-to-right order with monotonically increasing x (8 then 24). -/
theorem fmtText_dimensions :
    (∀ (text : List Char) (font : GfxFont) (conf : DrawTextConf),
      conf.width = none → 0 ≤ fmtCw font conf →
      (fmtText text font conf).width
        = ((fmtAccOf text font conf).flines.map
            (fun l => (l.length : ℚ) * fmtCw font conf)).foldl max 0)
    ∧ (∀ (text : List Char) (font : GfxFont) (conf : DrawTextConf),
      (fmtText text font conf).height
        = ((fmtAccOf text font conf).flines.length : ℚ) * fmtCh font conf)
    ∧ (∀ (text : List Char) (font : GfxFont) (conf : DrawTextConf) (w : ℚ),
      conf.width = some w → w ≠ 0 → (fmtText text font conf).width = w)
    ∧ ((fmtText ['a', '\n', 'b'] fontEx {}).height = 32
      ∧ (fmtAccOf ['a', '\n', 'b'] fontEx {}).flines.length = 2)
    ∧ ((fmtText ['a', 'b'] fontEx {}).chars.map (fun fc => fc.pos.x) = [8, 24]
      ∧ (8 : ℚ) < 24) := by
  refine ⟨fun text font conf hw hcw => fmtText_width_no_wrap text font conf hw hcw,
    fun text font conf => fmtText_height_eq text font conf,
    fun text font conf w hw hnz => fmtText_width_wrap text font conf w hw hnz,
    ⟨?_, ?_⟩, ⟨?_, by norm_num⟩⟩
  · norm_num [fmtText, fmtAccOf, fmtStep, fmtWrapHit, fmtCw, fmtCh, fmtScale,
      fmtSize, fmtGw, fmtGh, fontEx, appendLast, Vec2.scaleV,
      (eq_false (by decide) : (('a' : Char) = '\n') = False),
      (eq_false (by decide) : (('b' : Char) = '\n') = False)]
  · norm_num [fmtAccOf, fmtStep, fmtWrapHit, fmtCw, fmtCh, fmtScale,
      fmtSize, fmtGw, fmtGh, fontEx, appendLast, Vec2.scaleV,
      (eq_false (by decide) : (('a' : Char) = '\n') = False),
      (eq_false (by decide) : (('b' : Char) = '\n') = False)]
  · norm_num [fmtText, fmtGlyph, fmtAccOf, fmtStep, fmtWrapHit, fmtCw, fmtCh,
      fmtScale, fmtSize, fmtGw, fmtGh, fontEx, appendLast, Vec2.scaleV,
      Vec2.scaleN, originPt, List.enum, List.enumFrom, List.lookup,
      List.filterMap_cons, List.filterMap_nil,
      (eq_false (by decide) : (('a' : Char) = '\n') = False),
      (eq_false (by decide) : (('b' : Char) = '\n') = False),
      (by decide : (('a' : Char) == 'a') = true),
      (by decide : (('b' : Char) == 'a') = false),
      (by decide : (('b' : Char) == 'b') = true)]

/-- Witness for C7: at concrete inputs, the no-wrap width equation
holds for `fmtText "a" fontEx {}` (the hypotheses `conf.width = none`
and `0 ≤ fmtCw` are discharged), and with a configured wrap width of
100 the returned width is 100. -/
theorem fmtText_dimensions_witness :
    (fmtText ['a'] fontEx {}).width
      = ((fmtAccOf ['a'] fontEx {}).flines.map
          (fun l => (l.length : ℚ) * fmtCw fontEx {})).foldl max 0
    ∧ (fmtText ['a'] fontEx { width := some 100 }).width = 100 :=
  ⟨fmtText_dimensions.1 ['a'] fontEx {} rfl
      (by norm_num [fmtCw, fmtScale, fmtSize, fmtGw, fmtGh, fontEx, Vec2.scaleV]),
   fmtText_dimensions.2.2.1 ['a'] fontEx { width := some 100 } 100 rfl (by norm_num)⟩

/-- Counterexample for C7 as stated: with a configured wrap width of
100, `fmtText "a" fontEx _` returns total width 100, while the maximum
line width reached during layout (the running maximum `tw` of the
measuring loop) is only 16 — the returned width does not equal the
maximum reached line width. -/
theorem fmtText_dimensions_cex :
    (fmtText ['a'] fontEx { width := some 100 }).width = 100
    ∧ (fmtAccOf ['a'] fontEx { width := some 100 }).tw = 16
    ∧ (100 : ℚ) ≠ 16 := by
  refine ⟨?_, ?_, by norm_num⟩ <;>
    norm_num [fmtText, fmtAccOf, fmtStep, fmtWrapHit, fmtCw, fmtCh, fmtScale,
      fmtSize, fmtGw, fmtGh, fontEx, appendLast, Vec2.scaleV,
      (eq_false (by decide) : (('a' : Char) = '\n') = False)]

/-! ## Claim C8 -/

/-- C8: `fmtText` emits exactly one positioned glyph descriptor per
character that has an entry in the font's character map — in input
order — and a character without an entry is silently skipped while
still advancing the cursor: the emitted characters are exactly the
mapped non-newline input characters, and concretely
`fmtText "az" fontEx {}` (with `z` unmapped) yields exactly one glyph
(for `a`) while the measured width, 32, still covers both 16-wide
character cells. -/
theorem fmtText_glyphs :
    (∀ (text : List Char) (font : GfxFont) (conf : DrawTextConf),
      (fmtText text font conf).chars.map (fun fc => fc.ch)
        = (text.filter (fun c => c ≠ '\n')).filter
            (fun c => (font.map.lookup c).isSome))
    ∧ (fmtText ['a', 'z'] fontEx {}).chars.length = 1
    ∧ (fmtText ['a', 'z'] fontEx {}).chars.map (fun fc => fc.ch) = ['a']
    ∧ (fmtText ['a', 'z'] fontEx {}).width = 32 := by
  have hgen : ∀ (text : List Char) (font : GfxFont) (conf : DrawTextConf),
      (fmtText text font conf).chars.map (fun fc => fc.ch)
        = (text.filter (fun c => c ≠ '\n')).filter
            (fun c => (font.map.lookup c).isSome) := by
    intro text font conf
    rw [fmtText_chars_map_ch, fmtAccOf_flines_flatten]
  have hmap : (fmtText ['a', 'z'] fontEx {}).chars.map (fun fc => fc.ch) = ['a'] := by
    rw [hgen]
    decide
  refine ⟨hgen, ?_, hmap, ?_⟩
  · have := congrArg List.length hmap
    rwa [List.length_map] at this
  · norm_num [fmtText, fmtAccOf, fmtStep, fmtWrapHit, fmtCw, fmtCh, fmtScale,
      fmtSize, fmtGw, fmtGh, fontEx, appendLast, Vec2.scaleV,
      (eq_false (by decide) : (('a' : Char) = '\n') = False),
      (eq_false (by decide) : (('z' : Char) = '\n') = False)]

/-! ## Claim C1 -/

/-- C1: on a state with a bound texture and program and nonempty
queues, `drawRaw` performs a flush before appending (observable as the
draw-call counter incrementing) if and only if the requested texture
differs from the active one, or the requested program differs, or the
requested uniform set is not deeply structurally equal to the active
one, or appending the new vertices or indices would exceed the fixed
queue capacity.  In particular two consecutive emits whose uniform sets
are `deepEq` (equal by value, regardless of representation) do not
flush, while any difference in a scalar uniform value does. -/
theorem drawRaw_flushes_iff (verts : List Vertex) (indices : List ℕ)
    (tex : Option GfxTexture) (prog : Option GfxProgram) (uniform : Option Uniform)
    (s : GfxState) (t0 : GfxTexture) (p0 : GfxProgram)
    (ht : s.curTex = some t0) (hp : s.curProg = some p0)
    (hv : s.vqueue ≠ []) (hi : s.iqueue ≠ []) :
    (drawRaw verts indices tex prog uniform s).drawCalls = s.drawCalls + 1 ↔
      (tex.getD s.defTex ≠ t0 ∨ prog.getD s.defProg ≠ p0
        ∨ deepEq s.curUniform (uniform.getD []) = false
        ∨ s.vqueue.length + verts.length * STRIDE > QUEUE_COUNT
        ∨ s.iqueue.length + indices.length > QUEUE_COUNT) := by
  have hnz : ¬(s.curTex = none ∨ s.curProg = none ∨ s.vqueue = [] ∨ s.iqueue = []) := by
    simp [ht, hp, hv, hi]
  have hcond : (some (tex.getD s.defTex) ≠ s.curTex
        ∨ some (prog.getD s.defProg) ≠ s.curProg
        ∨ deepEq s.curUniform (uniform.getD []) = false
        ∨ s.vqueue.length + verts.length * STRIDE > QUEUE_COUNT
        ∨ s.iqueue.length + indices.length > QUEUE_COUNT)
      ↔ (tex.getD s.defTex ≠ t0 ∨ prog.getD s.defProg ≠ p0
        ∨ deepEq s.curUniform (uniform.getD []) = false
        ∨ s.vqueue.length + verts.length * STRIDE > QUEUE_COUNT
        ∨ s.iqueue.length + indices.length > QUEUE_COUNT) := by
    rw [ht, hp]
    simp
  rw [drawRaw_drawCalls_eq]
  by_cases hc : (some (tex.getD s.defTex) ≠ s.curTex
      ∨ some (prog.getD s.defProg) ≠ s.curProg
      ∨ deepEq s.curUniform (uniform.getD []) = false
      ∨ s.vqueue.length + verts.length * STRIDE > QUEUE_COUNT
      ∨ s.iqueue.length + indices.length > QUEUE_COUNT)
  · rw [if_pos hc, flush_act_drawCalls s hnz]
    exact ⟨fun _ => hcond.mp hc, fun _ => rfl⟩
  · rw [if_neg hc]
    exact ⟨fun h => absurd h (by omega), fun h => absurd (hcond.mpr h) hc⟩

/-- Witness for C1, at a concrete state with a bound texture/program
and nonempty queues: requesting a uniform set that is value-equal to
the active one (both map `u` to the scalar 1, through differently
ordered association lists) does not flush, while changing the scalar to
2 does. -/
theorem drawRaw_flushes_iff_witness :
    ¬((drawRaw [vEx] [0] none none
        (some [("u", .num 1), ("v", .num 0)]) stU).drawCalls = stU.drawCalls + 1)
    ∧ (drawRaw [vEx] [0] none none
        (some [("u", .num 2), ("v", .num 0)]) stU).drawCalls = stU.drawCalls + 1 := by
  constructor
  · rw [drawRaw_flushes_iff [vEx] [0] none none
      (some [("u", .num 1), ("v", .num 0)]) stU texA progA rfl rfl
      (by decide) (by decide)]
    decide
  · rw [drawRaw_flushes_iff [vEx] [0] none none
      (some [("u", .num 2), ("v", .num 0)]) stU texA progA rfl rfl
      (by decide) (by decide)]
    decide

/-! ## Claim C2 -/

/-- C2: an emit whose geometry would overflow the fixed queue capacity
(on a state with bound texture/program and nonempty queues) causes
exactly one flush before appending — the draw-call counter increments
by exactly one — and the emit is never rejected or truncated:
immediately afterwards the index queue holds exactly the emitted index
count and the vertex queue exactly the emitted vertex count times the
stride, i.e. only the new emit's geometry. -/
theorem drawRaw_overflow_spec (verts : List Vertex) (indices : List ℕ)
    (tex : Option GfxTexture) (prog : Option GfxProgram) (uniform : Option Uniform)
    (s : GfxState) (t0 : GfxTexture) (p0 : GfxProgram)
    (ht : s.curTex = some t0) (hp : s.curProg = some p0)
    (hv : s.vqueue ≠ []) (hi : s.iqueue ≠ [])
    (hover : s.vqueue.length + verts.length * STRIDE > QUEUE_COUNT
      ∨ s.iqueue.length + indices.length > QUEUE_COUNT) :
    (drawRaw verts indices tex prog uniform s).drawCalls = s.drawCalls + 1
    ∧ (drawRaw verts indices tex prog uniform s).iqueue.length = indices.length
    ∧ (drawRaw verts indices tex prog uniform s).vqueue.length
        = verts.length * STRIDE := by
  have hnz : ¬(s.curTex = none ∨ s.curProg = none ∨ s.vqueue = [] ∨ s.iqueue = []) := by
    simp [ht, hp, hv, hi]
  have hc : (some (tex.getD s.defTex) ≠ s.curTex
      ∨ some (prog.getD s.defProg) ≠ s.curProg
      ∨ deepEq s.curUniform (uniform.getD []) = false
      ∨ s.vqueue.length + verts.length * STRIDE > QUEUE_COUNT
      ∨ s.iqueue.length + indices.length > QUEUE_COUNT) :=
    Or.inr (Or.inr (Or.inr hover))
  refine ⟨?_, ?_, ?_⟩
  · rw [drawRaw_drawCalls_eq, if_pos hc, flush_act_drawCalls s hnz]
  · rw [drawRaw_iqueue_eq, if_pos hc, flush_act_iqueue s hnz]
    simp
  · rw [drawRaw_vqueue_length, if_pos hc, flush_act_vqueue s hnz]
    simp

/-- Witness for C2: on a state whose vertex queue holds 65530 floats,
emitting one more vertex (9 floats, exceeding the 65536 capacity)
flushes exactly once and leaves exactly the new geometry queued. -/
theorem drawRaw_overflow_spec_witness :
    (drawRaw [vEx] [0] none none none stOver).drawCalls = stOver.drawCalls + 1
    ∧ (drawRaw [vEx] [0] none none none stOver).iqueue.length = 1
    ∧ (drawRaw [vEx] [0] none none none stOver).vqueue.length = 9 := by
  have hq : stOver.vqueue = List.replicate 65530 0 := rfl
  have hv : stOver.vqueue ≠ [] := by
    rw [← List.length_pos_iff_ne_nil, hq, List.length_replicate]
    norm_num
  have hover : stOver.vqueue.length + ([vEx] : List Vertex).length * STRIDE > QUEUE_COUNT
      ∨ stOver.iqueue.length + ([0] : List ℕ).length > QUEUE_COUNT := by
    left
    rw [hq, List.length_replicate]
    norm_num [STRIDE, QUEUE_COUNT]
  exact drawRaw_overflow_spec [vEx] [0] none none none stOver texA progA
    rfl rfl hv (by decide) hover

/-! ## Claim C3 -/

/-- C3: `flush` is a no-op exactly when either queue is empty or no
active texture or program is bound; otherwise it issues exactly one
indexed draw call covering the full index queue (recorded in the ghost
`drawLog`), empties both queues, and increments the draw-call counter
by exactly one, leaving every other field unchanged. -/
theorem flush_spec (s : GfxState) :
    ((s.curTex = none ∨ s.curProg = none ∨ s.vqueue = [] ∨ s.iqueue = []) →
      flush s = s)
    ∧ (¬(s.curTex = none ∨ s.curProg = none ∨ s.vqueue = [] ∨ s.iqueue = []) →
      flush s = { s with
        iqueue := []
        vqueue := []
        drawCalls := s.drawCalls + 1
        drawLog := s.drawLog ++ [s.iqueue.length] }) := by
  constructor
  · intro h; unfold flush; rw [if_pos h]
  · intro h; unfold flush; rw [if_neg h]

/-- Witness for C3: on a state with an empty vertex queue `flush` is the
identity, and on a concrete flushable state it increments the draw-call
counter and records one draw call covering the full index queue. -/
theorem flush_spec_witness :
    flush st0 = st0
    ∧ (flush stBusy).drawCalls = stBusy.drawCalls + 1
    ∧ (flush stBusy).drawLog = [1] := by
  refine ⟨(flush_spec st0).1 (Or.inr (Or.inr (Or.inl rfl))), ?_, ?_⟩
  · rw [(flush_spec stBusy).2 (by decide)]
  · rw [(flush_spec stBusy).2 (by decide)]; rfl

/-! ## Claim C4 -/

/-- C4: the batch-queue invariant — the vertex queue length is a
multiple of the stride (9 floats per vertex) and every queued index is
a vertex-queue-relative offset strictly below `length / stride` — is
preserved by `flush`, by `drawRaw` (for any emit whose local indices
are valid for its vertex list, as every triangulation in the source
is), and by every public drawing operation.  Moreover each emit
rewrites its local indices by adding the vertex count present in the
queue at emission time (the state `t` right after the conditional
flush) and the previously queued indices are left untouched — never
re-based. -/
theorem queue_invariant_preserved (s : GfxState) (h : QueueInv s) :
    QueueInv (flush s)
    ∧ (∀ verts indices tex prog uniform, (∀ i ∈ indices, i < verts.length) →
        QueueInv (drawRaw verts indices tex prog uniform s))
    ∧ (∀ verts indices tex prog uniform, ∃ t : GfxState,
        (t = s ∨ t = flush s)
        ∧ (drawRaw verts indices tex prog uniform s).iqueue
            = t.iqueue ++ indices.map (fun i => i + t.vqueue.length / STRIDE))
    ∧ (∀ mo conf, QueueInv (drawQuad mo conf s))
    ∧ (∀ mo tex conf, QueueInv (drawTexture mo tex conf s))
    ∧ (∀ mo pos w hq conf, QueueInv (drawRect mo pos w hq conf s))
    ∧ (∀ mo pos w hq conf, QueueInv (drawRectStroke mo pos w hq conf s))
    ∧ (∀ mo p1 p2 conf, QueueInv (drawLine mo p1 p2 conf s))
    ∧ (∀ mo txt font conf, QueueInv (drawText mo txt font conf s))
    ∧ (∀ mo ftext, QueueInv (drawFmtText mo ftext s)) := by
  refine ⟨queueInv_flush s h,
    fun verts indices tex prog uniform hidx =>
      queueInv_drawRaw verts indices tex prog uniform s h hidx,
    fun verts indices tex prog uniform => ?_,
    fun mo conf => queueInv_drawQuad mo conf s h,
    fun mo tex conf => queueInv_drawQuad mo _ s h,
    fun mo pos w hq conf => queueInv_drawQuad mo _ s h,
    fun mo pos w hq conf => queueInv_drawRectStroke mo pos w hq conf s h,
    fun mo p1 p2 conf => queueInv_drawLine mo p1 p2 conf s h,
    fun mo txt font conf => queueInv_drawFmtText mo _ s h,
    fun mo ftext => queueInv_drawFmtText mo ftext s h⟩
  refine ⟨if some (tex.getD s.defTex) ≠ s.curTex
      ∨ some (prog.getD s.defProg) ≠ s.curProg
      ∨ deepEq s.curUniform (uniform.getD []) = false
      ∨ s.vqueue.length + verts.length * STRIDE > QUEUE_COUNT
      ∨ s.iqueue.length + indices.length > QUEUE_COUNT
    then flush s else s, ?_, drawRaw_iqueue_eq verts indices tex prog uniform s⟩
  split
  · exact Or.inr rfl
  · exact Or.inl rfl

/-- Witness for C4: the empty-queue state satisfies the invariant, and
after one `drawQuad` (which emits 4 vertices and the indices
`[0,1,3,1,2,3]`) it still holds. -/
theorem queue_invariant_preserved_witness :
    QueueInv st0 ∧ QueueInv (drawQuad moEx conf5 st0) :=
  ⟨by decide, (queue_invariant_preserved st0 (by decide)).2.2.2.1 moEx conf5⟩

/-! ## Claim C5 -/

/-- C5 (amended): `drawQuad` with anchor center, width 10, height 10,
rotation 0, position (0,0), identity active transform, in a 100×100
viewport emits four vertices whose NDC coordinates form an axis-aligned
square with half-extent 0.1 in both axes — but centered at NDC (-1, 1),
the image of the screen-space position (0,0) under
`ndc = (x/w*2-1, -y/h*2+1)`, not at the NDC origin.  The emitted vertex
queue is exactly the four 9-float vertices below (corner order as in the
source), and the index queue is the two triangles `[0,1,3,1,2,3]`. -/
theorem drawQuad_center_ndc (mo : MathOps) :
    (drawQuad mo conf5 st0).vqueue =
      [-11/10,  9/10, 1, 0, 1, 1, 1, 1, 1,
       -11/10, 11/10, 1, 0, 0, 1, 1, 1, 1,
        -9/10, 11/10, 1, 1, 0, 1, 1, 1, 1,
        -9/10,  9/10, 1, 1, 1, 1, 1, 1, 1]
    ∧ (drawQuad mo conf5 st0).iqueue = [0, 1, 3, 1, 2, 3] := by
  constructor <;>
    norm_num [drawQuad, drawRaw, flush, conf5, st0, texA, progA, toNDC,
      vertexFloats, mat4, Mat4.multVec2, Vec3.xy, originPt, Vec2.scaleV,
      Vec2.scaleN, vec2Of, pushTransform, pushTranslate, pushScale,
      pushRotateZ, popTransform, deepEq, STRIDE, QUEUE_COUNT,
      (eq_false (by decide) : ((0 : Fin 4) = 3) = False),
      (eq_false (by decide) : ((1 : Fin 4) = 3) = False)]

/-- Counterexample for C5 as stated: at the claim's own input the first
emitted vertex has NDC x-coordinate -11/10, which is neither 1/10 nor
-1/10, so the four vertices do not form a square of half-extent 0.1
centered at the NDC origin. -/
theorem drawQuad_center_ndc_cex :
    (drawQuad moEx conf5 st0).vqueue.head? = some (-11/10)
    ∧ (-11/10 : ℚ) ≠ 1/10 ∧ (-11/10 : ℚ) ≠ -1/10 := by
  refine ⟨?_, by norm_num, by norm_num⟩
  norm_num [drawQuad, drawRaw, flush, conf5, st0, texA, progA, toNDC,
    vertexFloats, mat4, Mat4.multVec2, Vec3.xy, originPt, Vec2.scaleV,
    Vec2.scaleN, vec2Of, pushTransform, pushTranslate, pushScale,
    pushRotateZ, popTransform, deepEq, STRIDE, QUEUE_COUNT,
    (eq_false (by decide) : ((0 : Fin 4) = 3) = False),
    (eq_false (by decide) : ((1 : Fin 4) = 3) = False)]

/-! ## Claim C6 -/

/-- C6 (amended): for every position, width, height and anchor,
`drawRectStroke` issues exactly four `drawLine` calls, one per edge of
the anchor-adjusted rectangle, forming a closed outline — but in the
fixed order left, bottom, right, top (the source starts from the
top-left corner and walks down, right, up), not top, right, bottom,
left.  With screen-space y growing downward, the corner
`(pos.x - w/2 - ox, pos.y - h/2 - oy)` is the top-left one, so the
first recorded segment joins top-left to bottom-left: the left edge. -/
theorem drawRectStroke_edges (mo : MathOps) (pos : Vec2) (w h : ℚ)
    (conf : DrawRectStrokeConf) (s : GfxState) :
    (drawRectStroke mo pos w h conf s).lineLog =
      (let o := originPt (conf.origin.getD (.named .topleft))
       let tl : Vec2 := ⟨pos.x - w/2 - o.x * w / 2, pos.y - h/2 - o.y * h / 2⟩
       let bl : Vec2 := ⟨pos.x - w/2 - o.x * w / 2, pos.y + h/2 - o.y * h / 2⟩
       let br : Vec2 := ⟨pos.x + w/2 - o.x * w / 2, pos.y + h/2 - o.y * h / 2⟩
       let tr : Vec2 := ⟨pos.x + w/2 - o.x * w / 2, pos.y - h/2 - o.y * h / 2⟩
       s.lineLog ++ [(tl, bl), (bl, br), (br, tr), (tr, tl)]) := by
  simp only [drawRectStroke, drawLine_lineLog, Vec2.add, Vec2.sub, Vec2.scaleV,
    Vec2.scaleN, List.append_assoc, List.singleton_append, List.cons_append,
    List.nil_append]
  norm_num [Vec2.mk.injEq, Prod.mk.injEq]
  refine ⟨?_, ?_, ?_, ?_⟩ <;> constructor <;> ring_nf <;> exact ⟨trivial, trivial⟩

/-- Counterexample for C6 as stated: for a 2×2 rectangle at (0,0) with
the default top-left anchor, the first issued `drawLine` call joins
(0,0) to (0,2) — a vertical segment, the left edge — whereas the
claimed top-right-bottom-left order would make the first call the top
edge, whose endpoints both have y = 0. -/
theorem drawRectStroke_edges_cex :
    ((drawRectStroke moEx ⟨0, 0⟩ 2 2 {} st0).lineLog).head? =
      some (⟨0, 0⟩, ⟨0, 2⟩)
    ∧ ((0 : ℚ), (2 : ℚ)).2 ≠ 0 := by
  constructor
  · rw [show (drawRectStroke moEx ⟨0, 0⟩ 2 2 {} st0).lineLog =
        st0.lineLog ++ [(⟨0, 0⟩, ⟨0, 2⟩), (⟨0, 2⟩, ⟨2, 2⟩), (⟨2, 2⟩, ⟨2, 0⟩), (⟨2, 0⟩, ⟨0, 0⟩)]
      from by
        simp only [drawRectStroke, drawLine_lineLog, List.append_assoc,
          List.singleton_append, List.cons_append, List.nil_append]
        norm_num [Vec2.add, Vec2.sub, Vec2.scaleV, Vec2.scaleN, originPt, st0,
          Prod.mk.injEq, Vec2.mk.injEq]]
    rfl
  · norm_num

/-! ## Claim C10 -/

/-- C10: every public drawing operation — `drawQuad`, `drawTexture`,
`drawRect`, `drawRectStroke`, `drawLine`, `drawText`, `drawFmtText` —
leaves both the active transform and the transform stack exactly as
they were before the call: `drawQuad` brackets its internal
translate/scale/rotate composition between one `pushTransform` and one
`popTransform`, and all the other primitives draw only through
`drawQuad`. -/
theorem draw_ops_preserve_transform (mo : MathOps) (s : GfxState) :
    (∀ conf, (drawQuad mo conf s).transform = s.transform
      ∧ (drawQuad mo conf s).transformStack = s.transformStack)
    ∧ (∀ tex conf, (drawTexture mo tex conf s).transform = s.transform
      ∧ (drawTexture mo tex conf s).transformStack = s.transformStack)
    ∧ (∀ pos w h conf, (drawRect mo pos w h conf s).transform = s.transform
      ∧ (drawRect mo pos w h conf s).transformStack = s.transformStack)
    ∧ (∀ pos w h conf, (drawRectStroke mo pos w h conf s).transform = s.transform
      ∧ (drawRectStroke mo pos w h conf s).transformStack = s.transformStack)
    ∧ (∀ p1 p2 conf, (drawLine mo p1 p2 conf s).transform = s.transform
      ∧ (drawLine mo p1 p2 conf s).transformStack = s.transformStack)
    ∧ (∀ txt font conf, (drawText mo txt font conf s).transform = s.transform
      ∧ (drawText mo txt font conf s).transformStack = s.transformStack)
    ∧ (∀ ftext, (drawFmtText mo ftext s).transform = s.transform
      ∧ (drawFmtText mo ftext s).transformStack = s.transformStack) :=
  ⟨fun conf => drawQuad_transform_stack mo conf s,
   fun _tex _conf => drawQuad_transform_stack mo _ s,
   fun _pos _w _h _conf => drawQuad_transform_stack mo _ s,
   fun pos w h conf => drawRectStroke_transform_stack mo pos w h conf s,
   fun p1 p2 conf => drawLine_transform_stack mo p1 p2 conf s,
   fun _txt _font _conf => drawFmtText_transform_stack mo _ s,
   fun ftext => drawFmtText_transform_stack mo ftext s⟩

/-! ## Claim C9 -/

/-- C9: for every active transform and every translation vector `v`
(including the zero vector, which takes the `translate` no-op fast
path), `pushTransform(); translate(v); popTransform()` restores the
pre-push state exactly — in particular the active transform. -/
theorem push_translate_pop_id (v : Vec2) (s : GfxState) :
    popTransform (pushTranslate v (pushTransform s)) = s := by
  unfold pushTransform pushTranslate
  split <;> rfl

end Kaboom
